import Mathlib

/-!
Verification model of the repository maulairfani/parsing-esgcrawling.

The repository has two source files, `src/parsing.py` (a sequential,
OCR-enabled pipeline) and `src/parsing_parallel.py` (a batch-converting
pipeline).  Both define a class `Parser` whose method `parse(source, doc_id,
..., testing)` downloads or opens a PDF, splits it into per-page temporary
PDF files, converts each page to Markdown through the external docling
engine, uploads the collected page records as JSON to Google Cloud Storage,
removes the temporary files, and returns the list of page records.

We shallowly embed both `parse` methods.  External collaborators (HTTP
download, pypdf page counting, docling conversion, the GCS upload) are
modelled by an environment record giving each call's outcome; the file
system and the storage upload are modelled by an explicit event trace the
run produces.  Sequential variant: `Parsing.parse` embeds
`Parser.parse` of `src/parsing.py`.  Batch variant: `ParsingParallel.parse`
embeds `Parser.parse` of `src/parsing_parallel.py`; docling's
`convert_all(page_paths, raises_on_error=True)` is modelled as a lazily
consumed stream of per-page results, each either a successful conversion,
a FAILURE-status result, or a raised `ConversionError` (which, with
`raises_on_error=True`, propagates out of the iteration), yielded in input
order (docling yields one result per input, in input order).
-/

/-- File names of a single run.  `src` is the caller-supplied local source
path (used when the source is not a URL), `download` is the temporary file
created by `_download_pdf` for a URL source, and `page n` is the temporary
single-page PDF created for page `n` (`tempfile.NamedTemporaryFile` always
creates a fresh file, distinct from the source and from other pages). -/
inductive FName where
  | src : FName
  | download : FName
  | page : Nat → FName
deriving DecidableEq, Repr

/-- Exceptions `parse` can propagate: `downloadError` models
`response.raise_for_status()` failing; `valueError` models the
`ValueError("Could not read PDF ...")` of `src/parsing.py`; `readError`
models `PdfReader` raising in `src/parsing_parallel.py`;
`conversionError` models an exception raised by the conversion engine;
`uploadError` models `blob.upload_from_string` raising. -/
inductive PErr where
  | downloadError : PErr
  | valueError : PErr
  | readError : PErr
  | conversionError : String → PErr
  | uploadError : PErr
deriving DecidableEq, Repr

/-- The `metadata` sub-dictionary of a page record:
`{"page_number": ..., "doc_id": ...}`. -/
structure Metadata where
  page_number : Nat
  doc_id : String
deriving DecidableEq, Repr

/-- One element of the returned/uploaded list:
`{"id": str(uuid4()), "page_content": text, "metadata": {...}}`. -/
structure PageRecord where
  id : String
  page_content : String
  metadata : Metadata
deriving DecidableEq, Repr

/-- A minimal JSON value type, used to state the shape of the payload
serialized by `json.dumps`. -/
inductive Json where
  | str : String → Json
  | num : Int → Json
  | arr : List Json → Json
  | obj : List (String × Json) → Json

/-- JSON form of the `metadata` dictionary. -/
def Metadata.toJson (m : Metadata) : Json :=
  Json.obj [("page_number", Json.num (m.page_number : Int)), ("doc_id", Json.str m.doc_id)]

/-- JSON form of one page record dictionary. -/
def PageRecord.toJson (r : PageRecord) : Json :=
  Json.obj [("id", Json.str r.id), ("page_content", Json.str r.page_content),
    ("metadata", r.metadata.toJson)]

/-- JSON form of the uploaded payload: `json.dumps(parsed)` serializes the
list of page-record dictionaries as a JSON array. -/
def payloadJson (l : List PageRecord) : Json :=
  Json.arr (l.map PageRecord.toJson)

/-- Observable events of one run: creation and deletion of local files,
an invocation of the conversion engine on the page artifact of page `n`,
the `print` reporting a failed page in `src/parsing_parallel.py`, and a
successful storage upload `(bucket, key, payload)`. -/
inductive Event where
  | create : FName → Event
  | delete : FName → Event
  | convertCall : Nat → Event
  | failureReport : Nat → Event
  | upload : String → String → List PageRecord → Event
deriving DecidableEq, Repr

/-- Files created during a run, in order of creation. -/
def createdFiles (evs : List Event) : List FName :=
  evs.filterMap fun e => match e with | .create f => some f | _ => none

/-- Files deleted during a run, in order of deletion. -/
def deletedFiles (evs : List Event) : List FName :=
  evs.filterMap fun e => match e with | .delete f => some f | _ => none

/-- Files the run created but never deleted (left on disk at exit). -/
def leaked (evs : List Event) : List FName :=
  (createdFiles evs).filter fun f => !((deletedFiles evs).contains f)

/-- Page numbers of the per-page temporary files created by the run. -/
def createdPages (evs : List Event) : List Nat :=
  evs.filterMap fun e => match e with | .create (.page n) => some n | _ => none

/-- Pages on which the conversion engine was invoked, in order. -/
def convertCalls (evs : List Event) : List Nat :=
  evs.filterMap fun e => match e with | .convertCall n => some n | _ => none

/-- Pages reported as failed (the `print(f"Failed parsing page ...")`
branch of `src/parsing_parallel.py`), in order. -/
def failureReports (evs : List Event) : List Nat :=
  evs.filterMap fun e => match e with | .failureReport n => some n | _ => none

/-- Storage uploads performed by the run: `(bucket, key, payload)`. -/
def uploads (evs : List Event) : List (String × String × List PageRecord) :=
  evs.filterMap fun e => match e with | .upload b k p => some (b, k, p) | _ => none

/-- The storage key, from the f-string `f"parsed/{doc_id}.json"` (both
variants build the same key). -/
def gcsKey (doc_id : String) : String :=
  "parsed/" ++ doc_id ++ ".json"

/-- The effective page limit: `min(num_pages, 5) if testing else num_pages`
(identical in both variants). -/
def limitOf (testing : Bool) (total : Nat) : Nat :=
  if testing then min total 5 else total

/-- `source.startswith(("http://", "https://"))`, as tested by both
variants to decide whether to download (stated over the character list so
that it evaluates by kernel reduction). -/
def isUrlSource (source : String) : Bool :=
  "http://".data.isPrefixOf source.data || "https://".data.isPrefixOf source.data

namespace Parsing

/-- Environment of one run of `Parser.parse` in `src/parsing.py`:
outcomes of the external calls.  `downloadOk` — whether `requests.get` +
`raise_for_status` succeed; `pageCount` — result of
`get_pdf_page_count` (`none` models its `None` on a read error);
`convert n` — result of `parse_single_page` on page `n` (`.error` models a
raised exception); `uploadOk` — whether `_upload_to_gcs` succeeds;
`uuid n` — the `str(uuid4())` drawn for page `n`; `defaultBucket` — the
class attribute `DEFAULT_BUCKET` (from the environment, defaulting to
`"cesgs-dart"`). -/
structure Env where
  downloadOk : Bool
  pageCount : Option Nat
  convert : Nat → Except String String
  uploadOk : Bool
  uuid : Nat → String
  defaultBucket : String

/-- The per-page loop of `src/parsing.py` lines 102–110, over the listed
page numbers.  Each iteration creates the page's temporary file, extracts
the page into it, calls `parse_single_page` and — in a `finally` — removes
the temporary file; a raised conversion exception propagates after the
`finally`, appending no record and converting no further page. -/
def seqLoop (env : Env) (doc_id : String) :
    List Nat → Except PErr (List PageRecord) × List Event
  | [] => (.ok [], [])
  | n :: rest =>
    match env.convert n with
    | .error e =>
      (.error (.conversionError e),
        [.create (.page n), .convertCall n, .delete (.page n)])
    | .ok text =>
      let out := seqLoop env doc_id rest
      (out.1.map (fun l => ⟨env.uuid n, text, ⟨n, doc_id⟩⟩ :: l),
        .create (.page n) :: .convertCall n :: .delete (.page n) :: out.2)

/-- `Parser.parse` of `src/parsing.py` (lines 89–117): resolve the source
(download if URL), count pages (raising `ValueError` on `None`), run the
per-page split/convert loop up to the effective limit, upload the collected
list to GCS under `parsed/{doc_id}.json`, remove the downloaded file if the
source was a URL, and return the list.  The second component is the event
trace of the run. -/
def parse (env : Env) (source doc_id : String) (bucket_name : Option String)
    (testing : Bool) : Except PErr (List PageRecord) × List Event :=
  let bucket := bucket_name.getD env.defaultBucket
  if isUrlSource source && !env.downloadOk then
    (.error .downloadError, [])
  else
    let dl : List Event := if isUrlSource source then [.create .download] else []
    match env.pageCount with
    | none => (.error .valueError, dl)
    | some num_pages =>
      let limit := limitOf testing num_pages
      let out := seqLoop env doc_id (List.range' 1 limit)
      match out.1 with
      | .error e => (.error e, dl ++ out.2)
      | .ok parsed =>
        if env.uploadOk then
          (.ok parsed,
            dl ++ out.2 ++ [.upload bucket (gcsKey doc_id) parsed]
              ++ (if isUrlSource source then [.delete .download] else []))
        else
          (.error .uploadError, dl ++ out.2)

end Parsing

namespace ParsingParallel

/-- Outcome of converting one page under
`convert_all(page_paths, raises_on_error=True)`: a successful conversion
(with the exported Markdown), a result whose `status.name == "FAILURE"`
(skipped with a log line by the collection loop), or a raised
`ConversionError` (with `raises_on_error=True`, it propagates out of the
result iteration). -/
inductive ConvRes where
  | success : String → ConvRes
  | failure : ConvRes
  | raised : String → ConvRes
deriving DecidableEq, Repr

/-- Whether the outcome is a raised error. -/
def ConvRes.isRaised : ConvRes → Bool
  | .raised _ => true
  | _ => false

/-- Whether the outcome is a FAILURE-status result. -/
def ConvRes.isFail : ConvRes → Bool
  | .failure => true
  | _ => false

/-- Environment of one run of `Parser.parse` in `src/parsing_parallel.py`.
`pageCount = none` models `PdfReader` raising on an unreadable PDF (this
variant does not wrap the read in a try). -/
structure Env where
  downloadOk : Bool
  pageCount : Option Nat
  convertP : Nat → ConvRes
  uploadOk : Bool
  uuid : Nat → String
  defaultBucket : String

/-- The result-collection loop of `src/parsing_parallel.py` lines 91–104,
consuming the `convert_all` results in input order.  Each result is looked
up in `metadata_map` (which maps the page's temporary file name back to its
1-based page number, so the lookup recovers exactly the page number the
artifact was created for); a FAILURE-status result is logged and skipped, a
successful result is appended as a page record, and a raised conversion
error propagates, losing the partially collected list. -/
def collect (env : Env) (doc_id : String) :
    List Nat → Except PErr (List PageRecord) × List Event
  | [] => (.ok [], [])
  | n :: rest =>
    match env.convertP n with
    | .raised e => (.error (.conversionError e), [.convertCall n])
    | .failure =>
      let out := collect env doc_id rest
      (out.1, .convertCall n :: .failureReport n :: out.2)
    | .success md =>
      let out := collect env doc_id rest
      (out.1.map (fun l => ⟨env.uuid n, md, ⟨n, doc_id⟩⟩ :: l),
        .convertCall n :: out.2)

/-- `Parser.parse` of `src/parsing_parallel.py` (lines 54–121): resolve the
source, read the page count (the `PdfReader` call raises on an unreadable
file), extract every page up to the effective limit into a temporary file
(step 3 — all pages are split before any conversion), batch-convert and
collect (steps 4–5), upload to GCS under `parsed/{doc_id}.json` in the
default bucket (step 6), then — only on this normal path — unlink every
page file and the downloaded file (step 7) and return the list. -/
def parse (env : Env) (source doc_id : String) (testing : Bool) :
    Except PErr (List PageRecord) × List Event :=
  if isUrlSource source && !env.downloadOk then
    (.error .downloadError, [])
  else
    let dl : List Event := if isUrlSource source then [.create .download] else []
    match env.pageCount with
    | none => (.error .readError, dl)
    | some total_pages =>
      let limit := limitOf testing total_pages
      let splitEvs := (List.range' 1 limit).map (fun n => Event.create (.page n))
      let out := collect env doc_id (List.range' 1 limit)
      match out.1 with
      | .error e => (.error e, dl ++ splitEvs ++ out.2)
      | .ok parsed =>
        if env.uploadOk then
          (.ok parsed,
            dl ++ splitEvs ++ out.2
              ++ [.upload env.defaultBucket (gcsKey doc_id) parsed]
              ++ (List.range' 1 limit).map (fun n => Event.delete (.page n))
              ++ (if isUrlSource source then [.delete .download] else []))
        else
          (.error .uploadError, dl ++ splitEvs ++ out.2)

end ParsingParallel

/-! ### Cons-level evaluation lemmas for the event extractors -/

@[simp] theorem createdFiles_nil : createdFiles [] = [] := rfl
@[simp] theorem createdFiles_cons_create (f : FName) (evs : List Event) :
    createdFiles (.create f :: evs) = f :: createdFiles evs := rfl
@[simp] theorem createdFiles_cons_delete (f : FName) (evs : List Event) :
    createdFiles (.delete f :: evs) = createdFiles evs := rfl
@[simp] theorem createdFiles_cons_convertCall (n : Nat) (evs : List Event) :
    createdFiles (.convertCall n :: evs) = createdFiles evs := rfl
@[simp] theorem createdFiles_cons_failureReport (n : Nat) (evs : List Event) :
    createdFiles (.failureReport n :: evs) = createdFiles evs := rfl
@[simp] theorem createdFiles_cons_upload (b k : String) (p : List PageRecord)
    (evs : List Event) : createdFiles (.upload b k p :: evs) = createdFiles evs := rfl

@[simp] theorem deletedFiles_nil : deletedFiles [] = [] := rfl
@[simp] theorem deletedFiles_cons_create (f : FName) (evs : List Event) :
    deletedFiles (.create f :: evs) = deletedFiles evs := rfl
@[simp] theorem deletedFiles_cons_delete (f : FName) (evs : List Event) :
    deletedFiles (.delete f :: evs) = f :: deletedFiles evs := rfl
@[simp] theorem deletedFiles_cons_convertCall (n : Nat) (evs : List Event) :
    deletedFiles (.convertCall n :: evs) = deletedFiles evs := rfl
@[simp] theorem deletedFiles_cons_failureReport (n : Nat) (evs : List Event) :
    deletedFiles (.failureReport n :: evs) = deletedFiles evs := rfl
@[simp] theorem deletedFiles_cons_upload (b k : String) (p : List PageRecord)
    (evs : List Event) : deletedFiles (.upload b k p :: evs) = deletedFiles evs := rfl

@[simp] theorem createdPages_nil : createdPages [] = [] := rfl
@[simp] theorem createdPages_cons_create_page (n : Nat) (evs : List Event) :
    createdPages (.create (.page n) :: evs) = n :: createdPages evs := rfl
@[simp] theorem createdPages_cons_create_src (evs : List Event) :
    createdPages (.create .src :: evs) = createdPages evs := rfl
@[simp] theorem createdPages_cons_create_download (evs : List Event) :
    createdPages (.create .download :: evs) = createdPages evs := rfl
@[simp] theorem createdPages_cons_delete (f : FName) (evs : List Event) :
    createdPages (.delete f :: evs) = createdPages evs := rfl
@[simp] theorem createdPages_cons_convertCall (n : Nat) (evs : List Event) :
    createdPages (.convertCall n :: evs) = createdPages evs := rfl
@[simp] theorem createdPages_cons_failureReport (n : Nat) (evs : List Event) :
    createdPages (.failureReport n :: evs) = createdPages evs := rfl
@[simp] theorem createdPages_cons_upload (b k : String) (p : List PageRecord)
    (evs : List Event) : createdPages (.upload b k p :: evs) = createdPages evs := rfl

@[simp] theorem convertCalls_nil : convertCalls [] = [] := rfl
@[simp] theorem convertCalls_cons_create (f : FName) (evs : List Event) :
    convertCalls (.create f :: evs) = convertCalls evs := rfl
@[simp] theorem convertCalls_cons_delete (f : FName) (evs : List Event) :
    convertCalls (.delete f :: evs) = convertCalls evs := rfl
@[simp] theorem convertCalls_cons_convertCall (n : Nat) (evs : List Event) :
    convertCalls (.convertCall n :: evs) = n :: convertCalls evs := rfl
@[simp] theorem convertCalls_cons_failureReport (n : Nat) (evs : List Event) :
    convertCalls (.failureReport n :: evs) = convertCalls evs := rfl
@[simp] theorem convertCalls_cons_upload (b k : String) (p : List PageRecord)
    (evs : List Event) : convertCalls (.upload b k p :: evs) = convertCalls evs := rfl

@[simp] theorem failureReports_nil : failureReports [] = [] := rfl
@[simp] theorem failureReports_cons_create (f : FName) (evs : List Event) :
    failureReports (.create f :: evs) = failureReports evs := rfl
@[simp] theorem failureReports_cons_delete (f : FName) (evs : List Event) :
    failureReports (.delete f :: evs) = failureReports evs := rfl
@[simp] theorem failureReports_cons_convertCall (n : Nat) (evs : List Event) :
    failureReports (.convertCall n :: evs) = failureReports evs := rfl
@[simp] theorem failureReports_cons_failureReport (n : Nat) (evs : List Event) :
    failureReports (.failureReport n :: evs) = n :: failureReports evs := rfl
@[simp] theorem failureReports_cons_upload (b k : String) (p : List PageRecord)
    (evs : List Event) : failureReports (.upload b k p :: evs) = failureReports evs := rfl

@[simp] theorem uploads_nil : uploads [] = [] := rfl
@[simp] theorem uploads_cons_create (f : FName) (evs : List Event) :
    uploads (.create f :: evs) = uploads evs := rfl
@[simp] theorem uploads_cons_delete (f : FName) (evs : List Event) :
    uploads (.delete f :: evs) = uploads evs := rfl
@[simp] theorem uploads_cons_convertCall (n : Nat) (evs : List Event) :
    uploads (.convertCall n :: evs) = uploads evs := rfl
@[simp] theorem uploads_cons_failureReport (n : Nat) (evs : List Event) :
    uploads (.failureReport n :: evs) = uploads evs := rfl
@[simp] theorem uploads_cons_upload (b k : String) (p : List PageRecord)
    (evs : List Event) : uploads (.upload b k p :: evs) = (b, k, p) :: uploads evs := rfl

@[simp] theorem createdFiles_append (a b : List Event) :
    createdFiles (a ++ b) = createdFiles a ++ createdFiles b :=
  List.filterMap_append ..

@[simp] theorem deletedFiles_append (a b : List Event) :
    deletedFiles (a ++ b) = deletedFiles a ++ deletedFiles b :=
  List.filterMap_append ..

@[simp] theorem createdPages_append (a b : List Event) :
    createdPages (a ++ b) = createdPages a ++ createdPages b :=
  List.filterMap_append ..

@[simp] theorem convertCalls_append (a b : List Event) :
    convertCalls (a ++ b) = convertCalls a ++ convertCalls b :=
  List.filterMap_append ..

@[simp] theorem failureReports_append (a b : List Event) :
    failureReports (a ++ b) = failureReports a ++ failureReports b :=
  List.filterMap_append ..

@[simp] theorem uploads_append (a b : List Event) :
    uploads (a ++ b) = uploads a ++ uploads b :=
  List.filterMap_append ..

@[simp] theorem createdPages_createEvents (l : List Nat) :
    createdPages (l.map (fun n => Event.create (.page n))) = l := by
  induction l with
  | nil => rfl
  | cons n rest ih => simp [ih]

@[simp] theorem createdFiles_createEvents (l : List Nat) :
    createdFiles (l.map (fun n => Event.create (.page n))) = l.map FName.page := by
  induction l with
  | nil => rfl
  | cons n rest ih => simp [ih]

@[simp] theorem deletedFiles_deleteEvents (l : List Nat) :
    deletedFiles (l.map (fun n => Event.delete (.page n))) = l.map FName.page := by
  induction l with
  | nil => rfl
  | cons n rest ih => simp [ih]

@[simp] theorem convertCalls_createEvents (l : List Nat) :
    convertCalls (l.map (fun n => Event.create (.page n))) = [] := by
  induction l with
  | nil => rfl
  | cons n rest ih => simp [ih]

@[simp] theorem failureReports_createEvents (l : List Nat) :
    failureReports (l.map (fun n => Event.create (.page n))) = [] := by
  induction l with
  | nil => rfl
  | cons n rest ih => simp [ih]

@[simp] theorem uploads_createEvents (l : List Nat) :
    uploads (l.map (fun n => Event.create (.page n))) = [] := by
  induction l with
  | nil => rfl
  | cons n rest ih => simp [ih]

@[simp] theorem uploads_deleteEvents (l : List Nat) :
    uploads (l.map (fun n => Event.delete (.page n))) = [] := by
  induction l with
  | nil => rfl
  | cons n rest ih => simp [ih]

/-! ### Helper lemmas about the sequential per-page loop -/

namespace Parsing

theorem seqLoop_ok_map (env : Env) (d : String) (l : List Nat)
    (parsed : List PageRecord) (h : (seqLoop env d l).1 = .ok parsed) :
    parsed.map (fun r => r.metadata.page_number) = l := by
  induction l generalizing parsed with
  | nil =>
    have hp : [] = parsed := Except.ok.inj h
    simp [← hp]
  | cons n rest ih =>
    cases hc : env.convert n with
    | error e => simp [seqLoop, hc] at h
    | ok text =>
      cases hrec : (seqLoop env d rest).1 with
      | error e => simp [seqLoop, hc, hrec, Except.map] at h
      | ok p =>
        simp [seqLoop, hc, hrec, Except.map] at h
        subst h
        simp [ih p hrec]

theorem seqLoop_ok_docid (env : Env) (d : String) (l : List Nat)
    (parsed : List PageRecord) (h : (seqLoop env d l).1 = .ok parsed) :
    ∀ r ∈ parsed, r.metadata.doc_id = d := by
  induction l generalizing parsed with
  | nil =>
    have hp : [] = parsed := Except.ok.inj h
    simp [← hp]
  | cons n rest ih =>
    cases hc : env.convert n with
    | error e => simp [seqLoop, hc] at h
    | ok text =>
      cases hrec : (seqLoop env d rest).1 with
      | error e => simp [seqLoop, hc, hrec, Except.map] at h
      | ok p =>
        simp [seqLoop, hc, hrec, Except.map] at h
        subst h
        intro r hr
        rcases List.mem_cons.1 hr with hr | hr
        · subst hr; rfl
        · exact ih p hrec r hr

theorem seqLoop_ok_of_forall (env : Env) (d : String) (l : List Nat)
    (h : ∀ n ∈ l, ∃ t, env.convert n = .ok t) :
    ∃ parsed, (seqLoop env d l).1 = .ok parsed := by
  induction l with
  | nil => exact ⟨[], rfl⟩
  | cons n rest ih =>
    obtain ⟨t, ht⟩ := h n (List.mem_cons_self n rest)
    obtain ⟨p, hp⟩ := ih (fun m hm => h m (List.mem_cons_of_mem n hm))
    exact ⟨⟨env.uuid n, t, ⟨n, d⟩⟩ :: p, by simp [seqLoop, ht, hp, Except.map]⟩

theorem seqLoop_created_eq_deleted (env : Env) (d : String) (l : List Nat) :
    createdFiles (seqLoop env d l).2 = deletedFiles (seqLoop env d l).2 := by
  induction l with
  | nil => rfl
  | cons n rest ih =>
    cases hc : env.convert n with
    | error e => simp [seqLoop, hc]
    | ok text => simp [seqLoop, hc, ih]

theorem seqLoop_createdFiles_pages (env : Env) (d : String) (l : List Nat) :
    ∀ f ∈ createdFiles (seqLoop env d l).2, ∃ n, n ∈ l ∧ f = FName.page n := by
  induction l with
  | nil => intro f hf; simp [seqLoop] at hf
  | cons n rest ih =>
    intro f hf
    cases hc : env.convert n with
    | error e =>
      simp [seqLoop, hc] at hf
      exact ⟨n, List.mem_cons_self n rest, hf⟩
    | ok text =>
      simp [seqLoop, hc] at hf
      rcases hf with hf | hf
      · exact ⟨n, List.mem_cons_self n rest, hf⟩
      · obtain ⟨m, hm, hfm⟩ := ih f hf
        exact ⟨m, List.mem_cons_of_mem n hm, hfm⟩

theorem seqLoop_deletedFiles_pages (env : Env) (d : String) (l : List Nat) :
    ∀ f ∈ deletedFiles (seqLoop env d l).2, ∃ n, n ∈ l ∧ f = FName.page n := by
  intro f hf
  exact seqLoop_createdFiles_pages env d l f
    (by rw [seqLoop_created_eq_deleted]; exact hf)

theorem seqLoop_uploads (env : Env) (d : String) (l : List Nat) :
    uploads (seqLoop env d l).2 = [] := by
  induction l with
  | nil => rfl
  | cons n rest ih =>
    cases hc : env.convert n with
    | error e => simp [seqLoop, hc]
    | ok text => simp [seqLoop, hc, ih]

theorem seqLoop_convertCalls_sub (env : Env) (d : String) (l : List Nat) :
    ∀ n ∈ convertCalls (seqLoop env d l).2, n ∈ l := by
  induction l with
  | nil => intro n hn; simp [seqLoop] at hn
  | cons m rest ih =>
    intro n hn
    cases hc : env.convert m with
    | error e =>
      simp [seqLoop, hc] at hn
      simp [hn]
    | ok text =>
      simp [seqLoop, hc] at hn
      rcases hn with hn | hn
      · simp [hn]
      · exact List.mem_cons_of_mem m (ih n hn)

theorem seqLoop_first_error (env : Env) (d : String) (l1 : List Nat)
    (k : Nat) (l2 : List Nat) (e : String)
    (h1 : ∀ n ∈ l1, ∃ t, env.convert n = .ok t)
    (hk : env.convert k = .error e) :
    (seqLoop env d (l1 ++ k :: l2)).1 = .error (.conversionError e)
      ∧ convertCalls (seqLoop env d (l1 ++ k :: l2)).2 = l1 ++ [k]
      ∧ Event.delete (.page k) ∈ (seqLoop env d (l1 ++ k :: l2)).2 := by
  induction l1 with
  | nil =>
    refine ⟨by simp [seqLoop, hk], by simp [seqLoop, hk], by simp [seqLoop, hk]⟩
  | cons m rest ih =>
    obtain ⟨t, ht⟩ := h1 m (List.mem_cons_self m rest)
    obtain ⟨ih1, ih2, ih3⟩ := ih (fun n hn => h1 n (List.mem_cons_of_mem m hn))
    refine ⟨?_, ?_, ?_⟩
    · simp only [List.cons_append, seqLoop, ht]
      cases hrec : (seqLoop env d (rest ++ k :: l2)).1 with
      | error e2 => rw [hrec] at ih1; simpa [Except.map, hrec] using ih1
      | ok p => rw [hrec] at ih1; exact absurd ih1 (by simp)
    · simp only [List.cons_append, seqLoop, ht]
      simpa using ih2
    · simp only [List.cons_append, seqLoop, ht]
      simp only [List.mem_cons]
      exact Or.inr (Or.inr (Or.inr ih3))

end Parsing

/-! ### Helper lemmas about the parallel collection loop -/

namespace ParsingParallel

theorem collect_ok_map (env : Env) (d : String) (l : List Nat)
    (parsed : List PageRecord) (h : (collect env d l).1 = .ok parsed) :
    parsed.map (fun r => r.metadata.page_number)
      = l.filter (fun n => !(env.convertP n).isFail) := by
  induction l generalizing parsed with
  | nil =>
    have hp : [] = parsed := Except.ok.inj h
    simp [← hp]
  | cons n rest ih =>
    cases hc : env.convertP n with
    | raised e => simp [collect, hc] at h
    | failure =>
      simp only [collect, hc] at h
      rw [List.filter_cons_of_neg (by simp [hc, ConvRes.isFail])]
      exact ih parsed h
    | success md =>
      cases hrec : (collect env d rest).1 with
      | error e => simp [collect, hc, hrec, Except.map] at h
      | ok p =>
        simp [collect, hc, hrec, Except.map] at h
        subst h
        rw [List.filter_cons_of_pos (by simp [hc, ConvRes.isFail])]
        simp [ih p hrec]

theorem collect_ok_docid (env : Env) (d : String) (l : List Nat)
    (parsed : List PageRecord) (h : (collect env d l).1 = .ok parsed) :
    ∀ r ∈ parsed, r.metadata.doc_id = d := by
  induction l generalizing parsed with
  | nil =>
    have hp : [] = parsed := Except.ok.inj h
    simp [← hp]
  | cons n rest ih =>
    cases hc : env.convertP n with
    | raised e => simp [collect, hc] at h
    | failure =>
      simp only [collect, hc] at h
      exact ih parsed h
    | success md =>
      cases hrec : (collect env d rest).1 with
      | error e => simp [collect, hc, hrec, Except.map] at h
      | ok p =>
        simp [collect, hc, hrec, Except.map] at h
        subst h
        intro r hr
        rcases List.mem_cons.1 hr with hr | hr
        · subst hr; rfl
        · exact ih p hrec r hr

theorem collect_ok_of_forall (env : Env) (d : String) (l : List Nat)
    (h : ∀ n ∈ l, (env.convertP n).isRaised = false) :
    ∃ parsed, (collect env d l).1 = .ok parsed := by
  induction l with
  | nil => exact ⟨[], rfl⟩
  | cons n rest ih =>
    obtain ⟨p, hp⟩ := ih (fun m hm => h m (List.mem_cons_of_mem n hm))
    cases hc : env.convertP n with
    | raised e =>
      exact absurd (h n (List.mem_cons_self n rest)) (by simp [hc, ConvRes.isRaised])
    | failure => exact ⟨p, by simp [collect, hc, hp]⟩
    | success md =>
      exact ⟨⟨env.uuid n, md, ⟨n, d⟩⟩ :: p, by simp [collect, hc, hp, Except.map]⟩

theorem collect_ok_failureReports (env : Env) (d : String) (l : List Nat)
    (parsed : List PageRecord) (h : (collect env d l).1 = .ok parsed) :
    failureReports (collect env d l).2
      = l.filter (fun n => (env.convertP n).isFail) := by
  induction l generalizing parsed with
  | nil => rfl
  | cons n rest ih =>
    cases hc : env.convertP n with
    | raised e => simp [collect, hc] at h
    | failure =>
      simp only [collect, hc] at h ⊢
      rw [List.filter_cons_of_pos (by simp [hc, ConvRes.isFail])]
      simp [ih parsed h]
    | success md =>
      cases hrec : (collect env d rest).1 with
      | error e => simp [collect, hc, hrec, Except.map] at h
      | ok p =>
        simp only [collect, hc] at h ⊢
        rw [List.filter_cons_of_neg (by simp [hc, ConvRes.isFail])]
        simp [ih p hrec]

theorem collect_ok_convertCalls (env : Env) (d : String) (l : List Nat)
    (parsed : List PageRecord) (h : (collect env d l).1 = .ok parsed) :
    convertCalls (collect env d l).2 = l := by
  induction l generalizing parsed with
  | nil => rfl
  | cons n rest ih =>
    cases hc : env.convertP n with
    | raised e => simp [collect, hc] at h
    | failure =>
      simp only [collect, hc] at h ⊢
      simp [ih parsed h]
    | success md =>
      cases hrec : (collect env d rest).1 with
      | error e => simp [collect, hc, hrec, Except.map] at h
      | ok p =>
        simp only [collect, hc] at h ⊢
        simp [ih p hrec]

theorem collect_convertCalls_sub (env : Env) (d : String) (l : List Nat) :
    ∀ n ∈ convertCalls (collect env d l).2, n ∈ l := by
  induction l with
  | nil => intro n hn; simp [collect] at hn
  | cons m rest ih =>
    intro n hn
    cases hc : env.convertP m with
    | raised e =>
      simp [collect, hc] at hn
      simp [hn]
    | failure =>
      simp [collect, hc] at hn
      rcases hn with hn | hn
      · simp [hn]
      · exact List.mem_cons_of_mem m (ih n hn)
    | success md =>
      simp [collect, hc] at hn
      rcases hn with hn | hn
      · simp [hn]
      · exact List.mem_cons_of_mem m (ih n hn)

theorem collect_createdFiles (env : Env) (d : String) (l : List Nat) :
    createdFiles (collect env d l).2 = [] := by
  induction l with
  | nil => rfl
  | cons n rest ih =>
    cases hc : env.convertP n with
    | raised e => simp [collect, hc]
    | failure => simp [collect, hc, ih]
    | success md => simp [collect, hc, ih]

theorem collect_deletedFiles (env : Env) (d : String) (l : List Nat) :
    deletedFiles (collect env d l).2 = [] := by
  induction l with
  | nil => rfl
  | cons n rest ih =>
    cases hc : env.convertP n with
    | raised e => simp [collect, hc]
    | failure => simp [collect, hc, ih]
    | success md => simp [collect, hc, ih]

theorem collect_createdPages (env : Env) (d : String) (l : List Nat) :
    createdPages (collect env d l).2 = [] := by
  induction l with
  | nil => rfl
  | cons n rest ih =>
    cases hc : env.convertP n with
    | raised e => simp [collect, hc]
    | failure => simp [collect, hc, ih]
    | success md => simp [collect, hc, ih]

theorem collect_uploads (env : Env) (d : String) (l : List Nat) :
    uploads (collect env d l).2 = [] := by
  induction l with
  | nil => rfl
  | cons n rest ih =>
    cases hc : env.convertP n with
    | raised e => simp [collect, hc]
    | failure => simp [collect, hc, ih]
    | success md => simp [collect, hc, ih]

end ParsingParallel

/-! ### Case-analysis lemmas for the full runs -/

theorem leaked_eq_nil (evs : List Event)
    (h : ∀ f ∈ createdFiles evs, f ∈ deletedFiles evs) : leaked evs = [] := by
  simp only [leaked, List.filter_eq_nil_iff]
  intro f hf
  simp [List.elem_eq_mem, h f hf]

namespace Parsing

theorem parse_ok_cases (env : Env) (s d : String) (bn : Option String)
    (t : Bool) (parsed : List PageRecord)
    (h : (parse env s d bn t).1 = .ok parsed) :
    ∃ N, env.pageCount = some N ∧ env.uploadOk = true ∧
      (seqLoop env d (List.range' 1 (limitOf t N))).1 = .ok parsed ∧
      parse env s d bn t = (.ok parsed,
        (if isUrlSource s then [Event.create .download] else [])
          ++ (seqLoop env d (List.range' 1 (limitOf t N))).2
          ++ [.upload (bn.getD env.defaultBucket) (gcsKey d) parsed]
          ++ (if isUrlSource s then [Event.delete .download] else [])) := by
  cases hb : isUrlSource s && !env.downloadOk with
  | true => simp [parse, hb] at h
  | false =>
    cases hpc : env.pageCount with
    | none => simp [parse, hb, hpc] at h
    | some N =>
      cases hout : (seqLoop env d (List.range' 1 (limitOf t N))).1 with
      | error e => simp [parse, hb, hpc, hout] at h
      | ok p =>
        cases hup : env.uploadOk with
        | false => simp [parse, hb, hpc, hout, hup] at h
        | true =>
          simp only [parse, hb, hpc, hout, hup] at h
          simp at h
          subst h
          refine ⟨N, by simp [hpc], by simp [hup], hout, by simp [parse, hb, hpc, hout, hup]⟩

theorem parse_countNone (env : Env) (s d : String) (bn : Option String)
    (t : Bool) (hdl : env.downloadOk = true) (hpc : env.pageCount = none) :
    parse env s d bn t = (.error .valueError,
      if isUrlSource s then [Event.create .download] else []) := by
  simp [parse, hdl, hpc]

theorem parse_loopError (env : Env) (s d : String) (bn : Option String)
    (t : Bool) (N : Nat) (e : PErr)
    (hdl : env.downloadOk = true) (hpc : env.pageCount = some N)
    (hout : (seqLoop env d (List.range' 1 (limitOf t N))).1 = .error e) :
    parse env s d bn t = (.error e,
      (if isUrlSource s then [Event.create .download] else [])
        ++ (seqLoop env d (List.range' 1 (limitOf t N))).2) := by
  simp [parse, hdl, hpc, hout]

theorem parse_uploadFail (env : Env) (s d : String) (bn : Option String)
    (t : Bool) (N : Nat) (p : List PageRecord)
    (hdl : env.downloadOk = true) (hpc : env.pageCount = some N)
    (hout : (seqLoop env d (List.range' 1 (limitOf t N))).1 = .ok p)
    (hup : env.uploadOk = false) :
    parse env s d bn t = (.error .uploadError,
      (if isUrlSource s then [Event.create .download] else [])
        ++ (seqLoop env d (List.range' 1 (limitOf t N))).2) := by
  simp [parse, hdl, hpc, hout, hup]

theorem parse_ok_eq (env : Env) (s d : String) (bn : Option String)
    (t : Bool) (N : Nat) (p : List PageRecord)
    (hdl : env.downloadOk = true) (hpc : env.pageCount = some N)
    (hout : (seqLoop env d (List.range' 1 (limitOf t N))).1 = .ok p)
    (hup : env.uploadOk = true) :
    parse env s d bn t = (.ok p,
      (if isUrlSource s then [Event.create .download] else [])
        ++ (seqLoop env d (List.range' 1 (limitOf t N))).2
        ++ [.upload (bn.getD env.defaultBucket) (gcsKey d) p]
        ++ (if isUrlSource s then [Event.delete .download] else [])) := by
  simp [parse, hdl, hpc, hout, hup]

end Parsing

namespace ParsingParallel

theorem parse_ok_cases_pl (env : Env) (s d : String) (t : Bool)
    (parsed : List PageRecord) (h : (parse env s d t).1 = .ok parsed) :
    ∃ N, env.pageCount = some N ∧ env.uploadOk = true ∧
      (collect env d (List.range' 1 (limitOf t N))).1 = .ok parsed ∧
      parse env s d t = (.ok parsed,
        (if isUrlSource s then [Event.create .download] else [])
          ++ (List.range' 1 (limitOf t N)).map (fun n => Event.create (.page n))
          ++ (collect env d (List.range' 1 (limitOf t N))).2
          ++ [.upload env.defaultBucket (gcsKey d) parsed]
          ++ (List.range' 1 (limitOf t N)).map (fun n => Event.delete (.page n))
          ++ (if isUrlSource s then [Event.delete .download] else [])) := by
  cases hb : isUrlSource s && !env.downloadOk with
  | true => simp [parse, hb] at h
  | false =>
    cases hpc : env.pageCount with
    | none => simp [parse, hb, hpc] at h
    | some N =>
      cases hout : (collect env d (List.range' 1 (limitOf t N))).1 with
      | error e => simp [parse, hb, hpc, hout] at h
      | ok p =>
        cases hup : env.uploadOk with
        | false => simp [parse, hb, hpc, hout, hup] at h
        | true =>
          simp only [parse, hb, hpc, hout, hup] at h
          simp at h
          subst h
          refine ⟨N, by simp [hpc], by simp [hup], hout, by simp [parse, hb, hpc, hout, hup]⟩

theorem parse_readError (env : Env) (s d : String) (t : Bool)
    (hdl : env.downloadOk = true) (hpc : env.pageCount = none) :
    parse env s d t = (.error .readError,
      if isUrlSource s then [Event.create .download] else []) := by
  simp [parse, hdl, hpc]

theorem parse_collectError (env : Env) (s d : String) (t : Bool)
    (N : Nat) (e : PErr)
    (hdl : env.downloadOk = true) (hpc : env.pageCount = some N)
    (hout : (collect env d (List.range' 1 (limitOf t N))).1 = .error e) :
    parse env s d t = (.error e,
      (if isUrlSource s then [Event.create .download] else [])
        ++ (List.range' 1 (limitOf t N)).map (fun n => Event.create (.page n))
        ++ (collect env d (List.range' 1 (limitOf t N))).2) := by
  simp [parse, hdl, hpc, hout]

theorem parse_uploadFail_pl (env : Env) (s d : String) (t : Bool)
    (N : Nat) (p : List PageRecord)
    (hdl : env.downloadOk = true) (hpc : env.pageCount = some N)
    (hout : (collect env d (List.range' 1 (limitOf t N))).1 = .ok p)
    (hup : env.uploadOk = false) :
    parse env s d t = (.error .uploadError,
      (if isUrlSource s then [Event.create .download] else [])
        ++ (List.range' 1 (limitOf t N)).map (fun n => Event.create (.page n))
        ++ (collect env d (List.range' 1 (limitOf t N))).2) := by
  simp [parse, hdl, hpc, hout, hup]

theorem parse_ok_eq_pl (env : Env) (s d : String) (t : Bool)
    (N : Nat) (p : List PageRecord)
    (hdl : env.downloadOk = true) (hpc : env.pageCount = some N)
    (hout : (collect env d (List.range' 1 (limitOf t N))).1 = .ok p)
    (hup : env.uploadOk = true) :
    parse env s d t = (.ok p,
      (if isUrlSource s then [Event.create .download] else [])
        ++ (List.range' 1 (limitOf t N)).map (fun n => Event.create (.page n))
        ++ (collect env d (List.range' 1 (limitOf t N))).2
        ++ [.upload env.defaultBucket (gcsKey d) p]
        ++ (List.range' 1 (limitOf t N)).map (fun n => Event.delete (.page n))
        ++ (if isUrlSource s then [Event.delete .download] else [])) := by
  simp [parse, hdl, hpc, hout, hup]

end ParsingParallel

/-! ### A few residual helpers -/

namespace Parsing

theorem seqLoop_ok_createdPages (env : Env) (d : String) (l : List Nat)
    (parsed : List PageRecord) (h : (seqLoop env d l).1 = .ok parsed) :
    createdPages (seqLoop env d l).2 = l := by
  induction l generalizing parsed with
  | nil => rfl
  | cons n rest ih =>
    cases hc : env.convert n with
    | error e => simp [seqLoop, hc] at h
    | ok text =>
      cases hrec : (seqLoop env d rest).1 with
      | error e => simp [seqLoop, hc, hrec, Except.map] at h
      | ok p =>
        simp only [seqLoop, hc] at h ⊢
        simp [ih p hrec]

theorem seqLoop_createdPages_sub (env : Env) (d : String) (l : List Nat) :
    ∀ n ∈ createdPages (seqLoop env d l).2, n ∈ l := by
  induction l with
  | nil => intro n hn; simp [seqLoop] at hn
  | cons m rest ih =>
    intro n hn
    cases hc : env.convert m with
    | error e =>
      simp [seqLoop, hc] at hn
      simp [hn]
    | ok text =>
      simp [seqLoop, hc] at hn
      rcases hn with hn | hn
      · simp [hn]
      · exact List.mem_cons_of_mem m (ih n hn)

end Parsing

theorem pairwise_lt_filter_range' (s L : Nat) (q : Nat → Bool) :
    List.Pairwise (· < ·) ((List.range' s L).filter q) :=
  List.Pairwise.sublist (List.filter_sublist _) (List.pairwise_lt_range' s L)

/-! ### Extractors over conditional singleton traces, and membership bridges -/

theorem uploads_ite (c : Prop) [Decidable c] (a b : List Event) :
    uploads (if c then a else b) = if c then uploads a else uploads b := by
  split <;> rfl

theorem createdFiles_ite (c : Prop) [Decidable c] (a b : List Event) :
    createdFiles (if c then a else b)
      = if c then createdFiles a else createdFiles b := by
  split <;> rfl

theorem deletedFiles_ite (c : Prop) [Decidable c] (a b : List Event) :
    deletedFiles (if c then a else b)
      = if c then deletedFiles a else deletedFiles b := by
  split <;> rfl

theorem createdPages_ite (c : Prop) [Decidable c] (a b : List Event) :
    createdPages (if c then a else b)
      = if c then createdPages a else createdPages b := by
  split <;> rfl

theorem convertCalls_ite (c : Prop) [Decidable c] (a b : List Event) :
    convertCalls (if c then a else b)
      = if c then convertCalls a else convertCalls b := by
  split <;> rfl

theorem failureReports_ite (c : Prop) [Decidable c] (a b : List Event) :
    failureReports (if c then a else b)
      = if c then failureReports a else failureReports b := by
  split <;> rfl

theorem mem_convertCalls (k : Nat) (evs : List Event) :
    k ∈ convertCalls evs ↔ Event.convertCall k ∈ evs := by
  simp only [convertCalls, List.mem_filterMap]
  constructor
  · rintro ⟨e, he, hm⟩
    cases e <;> simp_all
  · intro h
    exact ⟨_, h, rfl⟩

theorem mem_createdPages (k : Nat) (evs : List Event) :
    k ∈ createdPages evs ↔ Event.create (.page k) ∈ evs := by
  simp only [createdPages, List.mem_filterMap]
  constructor
  · rintro ⟨e, he, hm⟩
    cases e with
    | create f => cases f <;> simp_all
    | _ => simp_all
  · intro h
    exact ⟨_, h, rfl⟩

theorem mem_createdFiles (f : FName) (evs : List Event) :
    f ∈ createdFiles evs ↔ Event.create f ∈ evs := by
  simp only [createdFiles, List.mem_filterMap]
  constructor
  · rintro ⟨e, he, hm⟩
    cases e <;> simp_all
  · intro h
    exact ⟨_, h, rfl⟩

theorem mem_deletedFiles (f : FName) (evs : List Event) :
    f ∈ deletedFiles evs ↔ Event.delete f ∈ evs := by
  simp only [deletedFiles, List.mem_filterMap]
  constructor
  · rintro ⟨e, he, hm⟩
    cases e <;> simp_all
  · intro h
    exact ⟨_, h, rfl⟩

@[simp] theorem deletedFiles_createEvents (l : List Nat) :
    deletedFiles (l.map (fun n => Event.create (.page n))) = [] := by
  induction l with
  | nil => rfl
  | cons n rest ih => simp [ih]

@[simp] theorem createdFiles_deleteEvents (l : List Nat) :
    createdFiles (l.map (fun n => Event.delete (.page n))) = [] := by
  induction l with
  | nil => rfl
  | cons n rest ih => simp [ih]

@[simp] theorem createdPages_deleteEvents (l : List Nat) :
    createdPages (l.map (fun n => Event.delete (.page n))) = [] := by
  induction l with
  | nil => rfl
  | cons n rest ih => simp [ih]

@[simp] theorem convertCalls_deleteEvents (l : List Nat) :
    convertCalls (l.map (fun n => Event.delete (.page n))) = [] := by
  induction l with
  | nil => rfl
  | cons n rest ih => simp [ih]

@[simp] theorem failureReports_deleteEvents (l : List Nat) :
    failureReports (l.map (fun n => Event.delete (.page n))) = [] := by
  induction l with
  | nil => rfl
  | cons n rest ih => simp [ih]

/-! ### Shape of the deleted-file set of a full run -/

namespace Parsing

theorem parse_deleted_shape (env : Env) (s d : String) (bn : Option String)
    (t : Bool) :
    ∀ f ∈ deletedFiles (parse env s d bn t).2,
      (∃ n, f = FName.page n) ∨ f = FName.download := by
  intro f hf
  have pagecase : ∀ (l : List Nat), f ∈ deletedFiles (seqLoop env d l).2 →
      (∃ n, f = FName.page n) ∨ f = FName.download := by
    intro l hl
    obtain ⟨n, _, hfn⟩ := seqLoop_deletedFiles_pages env d l f hl
    exact Or.inl ⟨n, hfn⟩
  cases hU : isUrlSource s with
  | false =>
    cases hpc : env.pageCount with
    | none => simp [parse, hU, hpc] at hf
    | some N =>
      cases hout : (seqLoop env d (List.range' 1 (limitOf t N))).1 with
      | error e =>
        simp only [parse, hU, hpc, hout] at hf
        simp at hf
        exact pagecase _ hf
      | ok p =>
        cases hup : env.uploadOk with
        | false =>
          simp only [parse, hU, hpc, hout, hup] at hf
          simp at hf
          exact pagecase _ hf
        | true =>
          simp only [parse, hU, hpc, hout, hup] at hf
          simp at hf
          exact pagecase _ hf
  | true =>
    cases hdl : env.downloadOk with
    | false => simp [parse, hU, hdl] at hf
    | true =>
      cases hpc : env.pageCount with
      | none => simp [parse, hU, hdl, hpc] at hf
      | some N =>
        cases hout : (seqLoop env d (List.range' 1 (limitOf t N))).1 with
        | error e =>
          simp only [parse, hU, hdl, hpc, hout] at hf
          simp at hf
          exact pagecase _ hf
        | ok p =>
          cases hup : env.uploadOk with
          | false =>
            simp only [parse, hU, hdl, hpc, hout, hup] at hf
            simp at hf
            exact pagecase _ hf
          | true =>
            simp only [parse, hU, hdl, hpc, hout, hup] at hf
            simp at hf
            rcases hf with hf | hf
            · exact pagecase _ hf
            · exact Or.inr hf

end Parsing

namespace ParsingParallel

theorem parse_deleted_shape_pl (env : Env) (s d : String) (t : Bool) :
    ∀ f ∈ deletedFiles (parse env s d t).2,
      (∃ n, f = FName.page n) ∨ f = FName.download := by
  intro f hf
  cases hU : isUrlSource s with
  | false =>
    cases hpc : env.pageCount with
    | none => simp [parse, hU, hpc] at hf
    | some N =>
      cases hout : (collect env d (List.range' 1 (limitOf t N))).1 with
      | error e =>
        simp only [parse, hU, hpc, hout] at hf
        simp [collect_deletedFiles] at hf
      | ok p =>
        cases hup : env.uploadOk with
        | false =>
          simp only [parse, hU, hpc, hout, hup] at hf
          simp [collect_deletedFiles] at hf
        | true =>
          simp only [parse, hU, hpc, hout, hup] at hf
          simp [collect_deletedFiles] at hf
          obtain ⟨n, _, hfn⟩ := hf
          exact Or.inl ⟨n, hfn.symm⟩
  | true =>
    cases hdl : env.downloadOk with
    | false => simp [parse, hU, hdl] at hf
    | true =>
      cases hpc : env.pageCount with
      | none => simp [parse, hU, hdl, hpc] at hf
      | some N =>
        cases hout : (collect env d (List.range' 1 (limitOf t N))).1 with
        | error e =>
          simp only [parse, hU, hdl, hpc, hout] at hf
          simp [collect_deletedFiles] at hf
        | ok p =>
          cases hup : env.uploadOk with
          | false =>
            simp only [parse, hU, hdl, hpc, hout, hup] at hf
            simp [collect_deletedFiles] at hf
          | true =>
            simp only [parse, hU, hdl, hpc, hout, hup] at hf
            simp [collect_deletedFiles] at hf
            rcases hf with ⟨n, _, hfn⟩ | hf
            · exact Or.inl ⟨n, hfn.symm⟩
            · exact Or.inr hf

end ParsingParallel

/-! ### Claims -/

/-- Claim C9: for every successful run of `parse` (either variant), the
list returned to the caller is exactly the payload that was uploaded to
storage — the run performs exactly one upload, whose payload is the
returned list itself (same records, same order). -/
theorem C9_return_equals_uploaded_payload :
    (∀ (env : Parsing.Env) (s d : String) (bn : Option String) (t : Bool)
        (parsed : List PageRecord),
      (Parsing.parse env s d bn t).1 = .ok parsed →
      uploads (Parsing.parse env s d bn t).2
        = [(bn.getD env.defaultBucket, gcsKey d, parsed)])
    ∧ (∀ (env : ParsingParallel.Env) (s d : String) (t : Bool)
        (parsed : List PageRecord),
      (ParsingParallel.parse env s d t).1 = .ok parsed →
      uploads (ParsingParallel.parse env s d t).2
        = [(env.defaultBucket, gcsKey d, parsed)]) := by
  constructor
  · intro env s d bn t parsed h
    obtain ⟨N, hpc, hup, hout, heq⟩ := Parsing.parse_ok_cases env s d bn t parsed h
    rw [heq]
    simp [Parsing.seqLoop_uploads, uploads_ite]
  · intro env s d t parsed h
    obtain ⟨N, hpc, hup, hout, heq⟩ := ParsingParallel.parse_ok_cases_pl env s d t parsed h
    rw [heq]
    simp [ParsingParallel.collect_uploads, uploads_ite]

/-- Witness for C9: a concrete successful one-page sequential run returns
`[⟨"u", "md", ⟨1, "doc"⟩⟩]` and uploads exactly that payload. -/
theorem C9_witness :
    (Parsing.parse ⟨true, some 1, (fun _ => .ok "md"), true, (fun _ => "u"),
        "cesgs-dart"⟩ "local.pdf" "doc" none false).1
      = .ok [⟨"u", "md", ⟨1, "doc"⟩⟩]
    ∧ uploads (Parsing.parse ⟨true, some 1, (fun _ => .ok "md"), true,
        (fun _ => "u"), "cesgs-dart"⟩ "local.pdf" "doc" none false).2
      = [("cesgs-dart", gcsKey "doc", [⟨"u", "md", ⟨1, "doc"⟩⟩])] :=
  ⟨rfl, C9_return_equals_uploaded_payload.1
    ⟨true, some 1, (fun _ => .ok "md"), true, (fun _ => "u"), "cesgs-dart"⟩
    "local.pdf" "doc" none false [⟨"u", "md", ⟨1, "doc"⟩⟩] rfl⟩

/-- Claim C10: for every run of `parse` (either variant) whose source does
not start with `http://` or `https://`, the caller's source file is never
deleted, on any exit path: every file the run deletes is a per-page
temporary PDF or the URL-download temporary. -/
theorem C10_local_source_never_deleted :
    (∀ (env : Parsing.Env) (s d : String) (bn : Option String) (t : Bool),
      isUrlSource s = false →
      Event.delete FName.src ∉ (Parsing.parse env s d bn t).2
        ∧ ∀ f ∈ deletedFiles (Parsing.parse env s d bn t).2,
            (∃ n, f = FName.page n) ∨ f = FName.download)
    ∧ (∀ (env : ParsingParallel.Env) (s d : String) (t : Bool),
      isUrlSource s = false →
      Event.delete FName.src ∉ (ParsingParallel.parse env s d t).2
        ∧ ∀ f ∈ deletedFiles (ParsingParallel.parse env s d t).2,
            (∃ n, f = FName.page n) ∨ f = FName.download) := by
  constructor
  · intro env s d bn t _
    refine ⟨?_, Parsing.parse_deleted_shape env s d bn t⟩
    intro hmem
    have hsrc := (mem_deletedFiles FName.src _).2 hmem
    rcases Parsing.parse_deleted_shape env s d bn t FName.src hsrc with ⟨n, hn⟩ | hn
    · exact FName.noConfusion hn
    · exact FName.noConfusion hn
  · intro env s d t _
    refine ⟨?_, ParsingParallel.parse_deleted_shape_pl env s d t⟩
    intro hmem
    have hsrc := (mem_deletedFiles FName.src _).2 hmem
    rcases ParsingParallel.parse_deleted_shape_pl env s d t FName.src hsrc with ⟨n, hn⟩ | hn
    · exact FName.noConfusion hn
    · exact FName.noConfusion hn

/-- Witness for C10: on a concrete local-path run, the source string is not
a URL and the caller's source file is not deleted. -/
theorem C10_witness :
    isUrlSource "local.pdf" = false
    ∧ Event.delete FName.src ∉ (Parsing.parse ⟨true, some 1, (fun _ => .ok "md"),
        true, (fun _ => "u"), "cesgs-dart"⟩ "local.pdf" "doc" none false).2 :=
  ⟨rfl, (C10_local_source_never_deleted.1
    ⟨true, some 1, (fun _ => .ok "md"), true, (fun _ => "u"), "cesgs-dart"⟩
    "local.pdf" "doc" none false rfl).1⟩

namespace Parsing

theorem parse_uploads_shape (env : Env) (s d : String) (bn : Option String)
    (t : Bool) :
    uploads (parse env s d bn t).2 = []
      ∨ ∃ parsed, (parse env s d bn t).1 = .ok parsed ∧
          uploads (parse env s d bn t).2
            = [(bn.getD env.defaultBucket, gcsKey d, parsed)] := by
  cases hres : (parse env s d bn t).1 with
  | ok parsed =>
    right
    obtain ⟨N, hpc, hup, hout, heq⟩ := parse_ok_cases env s d bn t parsed hres
    rw [heq]
    exact ⟨parsed, rfl, by simp [seqLoop_uploads, uploads_ite]⟩
  | error e =>
    left
    cases hU : isUrlSource s with
    | false =>
      cases hpc : env.pageCount with
      | none => simp [parse, hU, hpc]
      | some N =>
        cases hout : (seqLoop env d (List.range' 1 (limitOf t N))).1 with
        | error e2 => simp [parse, hU, hpc, hout, seqLoop_uploads, uploads_ite]
        | ok p =>
          cases hup : env.uploadOk with
          | false => simp [parse, hU, hpc, hout, hup, seqLoop_uploads, uploads_ite]
          | true => simp [parse, hU, hpc, hout, hup] at hres
    | true =>
      cases hdl : env.downloadOk with
      | false => simp [parse, hU, hdl]
      | true =>
        cases hpc : env.pageCount with
        | none => simp [parse, hU, hdl, hpc]
        | some N =>
          cases hout : (seqLoop env d (List.range' 1 (limitOf t N))).1 with
          | error e2 => simp [parse, hU, hdl, hpc, hout, seqLoop_uploads, uploads_ite]
          | ok p =>
            cases hup : env.uploadOk with
            | false => simp [parse, hU, hdl, hpc, hout, hup, seqLoop_uploads, uploads_ite]
            | true => simp [parse, hU, hdl, hpc, hout, hup] at hres

end Parsing

namespace ParsingParallel

theorem parse_uploads_shape_pl (env : Env) (s d : String) (t : Bool) :
    uploads (parse env s d t).2 = []
      ∨ ∃ parsed, (parse env s d t).1 = .ok parsed ∧
          uploads (parse env s d t).2
            = [(env.defaultBucket, gcsKey d, parsed)] := by
  cases hres : (parse env s d t).1 with
  | ok parsed =>
    right
    obtain ⟨N, hpc, hup, hout, heq⟩ := parse_ok_cases_pl env s d t parsed hres
    rw [heq]
    exact ⟨parsed, rfl, by simp [collect_uploads, uploads_ite]⟩
  | error e =>
    left
    cases hU : isUrlSource s with
    | false =>
      cases hpc : env.pageCount with
      | none => simp [parse, hU, hpc]
      | some N =>
        cases hout : (collect env d (List.range' 1 (limitOf t N))).1 with
        | error e2 => simp [parse, hU, hpc, hout, collect_uploads, uploads_ite]
        | ok p =>
          cases hup : env.uploadOk with
          | false => simp [parse, hU, hpc, hout, hup, collect_uploads, uploads_ite]
          | true => simp [parse, hU, hpc, hout, hup] at hres
    | true =>
      cases hdl : env.downloadOk with
      | false => simp [parse, hU, hdl]
      | true =>
        cases hpc : env.pageCount with
        | none => simp [parse, hU, hdl, hpc]
        | some N =>
          cases hout : (collect env d (List.range' 1 (limitOf t N))).1 with
          | error e2 => simp [parse, hU, hdl, hpc, hout, collect_uploads, uploads_ite]
          | ok p =>
            cases hup : env.uploadOk with
            | false => simp [parse, hU, hdl, hpc, hout, hup, collect_uploads, uploads_ite]
            | true => simp [parse, hU, hdl, hpc, hout, hup] at hres

end ParsingParallel

/-- Claim C8: every upload performed by a run (either variant) writes under
the key `parsed/{doc_id}.json` — a function of `doc_id` alone — in the
configured bucket (the `bucket_name` argument or the default bucket for the
sequential variant; the default bucket for the batch variant), and the
payload is a JSON array of objects of the exact shape
`{"id": <string>, "page_content": <string>,
"metadata": {"page_number": <int>, "doc_id": <string>}}` whose
`metadata.doc_id` is the run's `doc_id` argument. -/
theorem C8_persisted_artifact_contract :
    (∀ (env : Parsing.Env) (s d : String) (bn : Option String) (t : Bool)
        (b k : String) (p : List PageRecord),
      (b, k, p) ∈ uploads (Parsing.parse env s d bn t).2 →
      b = bn.getD env.defaultBucket ∧ k = gcsKey d
        ∧ ∀ r ∈ p, r.metadata.doc_id = d)
    ∧ (∀ (env : ParsingParallel.Env) (s d : String) (t : Bool)
        (b k : String) (p : List PageRecord),
      (b, k, p) ∈ uploads (ParsingParallel.parse env s d t).2 →
      b = env.defaultBucket ∧ k = gcsKey d
        ∧ ∀ r ∈ p, r.metadata.doc_id = d)
    ∧ (∀ dd : String, gcsKey dd = "parsed/" ++ dd ++ ".json")
    ∧ (∀ p : List PageRecord, payloadJson p = Json.arr (p.map PageRecord.toJson))
    ∧ (∀ r : PageRecord, r.toJson
        = Json.obj [("id", Json.str r.id),
            ("page_content", Json.str r.page_content),
            ("metadata", Json.obj [("page_number", Json.num (r.metadata.page_number : Int)),
              ("doc_id", Json.str r.metadata.doc_id)])]) := by
  refine ⟨?_, ?_, fun _ => rfl, fun _ => rfl, fun _ => rfl⟩
  · intro env s d bn t b k p hmem
    rcases Parsing.parse_uploads_shape env s d bn t with hnil | ⟨parsed, hok, heq⟩
    · rw [hnil] at hmem
      exact absurd hmem (List.not_mem_nil _)
    · rw [heq] at hmem
      simp at hmem
      obtain ⟨hb, hk, hp⟩ := hmem
      obtain ⟨N, hpc, hup, hout, _⟩ := Parsing.parse_ok_cases env s d bn t parsed hok
      subst hp
      exact ⟨hb, hk, Parsing.seqLoop_ok_docid env d _ p hout⟩
  · intro env s d t b k p hmem
    rcases ParsingParallel.parse_uploads_shape_pl env s d t with hnil | ⟨parsed, hok, heq⟩
    · rw [hnil] at hmem
      exact absurd hmem (List.not_mem_nil _)
    · rw [heq] at hmem
      simp at hmem
      obtain ⟨hb, hk, hp⟩ := hmem
      obtain ⟨N, hpc, hup, hout, _⟩ := ParsingParallel.parse_ok_cases_pl env s d t parsed hok
      subst hp
      exact ⟨hb, hk, ParsingParallel.collect_ok_docid env d _ p hout⟩

/-- Witness for C8: a concrete run uploads under the default bucket and key
`parsed/doc.json`, and the uploaded record carries `doc_id = "doc"`. -/
theorem C8_witness :
    ("cesgs-dart", gcsKey "doc", [(⟨"u", "md", ⟨1, "doc"⟩⟩ : PageRecord)])
        ∈ uploads (Parsing.parse ⟨true, some 1, (fun _ => .ok "md"), true,
          (fun _ => "u"), "cesgs-dart"⟩ "local.pdf" "doc" none false).2
    ∧ (⟨"u", "md", ⟨1, "doc"⟩⟩ : PageRecord).metadata.doc_id = "doc" := by
  have hmem : ("cesgs-dart", gcsKey "doc", [(⟨"u", "md", ⟨1, "doc"⟩⟩ : PageRecord)])
      ∈ uploads (Parsing.parse ⟨true, some 1, (fun _ => .ok "md"), true,
        (fun _ => "u"), "cesgs-dart"⟩ "local.pdf" "doc" none false).2 := by decide
  exact ⟨hmem, (C8_persisted_artifact_contract.1
    ⟨true, some 1, (fun _ => .ok "md"), true, (fun _ => "u"), "cesgs-dart"⟩
    "local.pdf" "doc" none false "cesgs-dart" (gcsKey "doc")
    [⟨"u", "md", ⟨1, "doc"⟩⟩] hmem).2.2 ⟨"u", "md", ⟨1, "doc"⟩⟩ (by decide)⟩

/-- Claim C7: for every run of `parse` that returns a list, the returned
page records are sorted strictly ascending by `metadata.page_number` (so at
most one record per page number), and the page numbers are exactly the
processed range `1..limit` with the FAILURE-status pages omitted — a
sublist of `1..limit` (no padding).  In the sequential variant a returning
run has converted every page, so the page numbers are exactly `1..limit`. -/
theorem C7_output_sorted_failed_omitted :
    (∀ (env : ParsingParallel.Env) (s d : String) (t : Bool) (N : Nat)
        (parsed : List PageRecord),
      env.pageCount = some N →
      (ParsingParallel.parse env s d t).1 = .ok parsed →
      parsed.map (fun r => r.metadata.page_number)
          = (List.range' 1 (limitOf t N)).filter
              (fun n => !(env.convertP n).isFail)
        ∧ List.Pairwise (· < ·) (parsed.map (fun r => r.metadata.page_number))
        ∧ (parsed.map (fun r => r.metadata.page_number)).Sublist
            (List.range' 1 (limitOf t N)))
    ∧ (∀ (env : Parsing.Env) (s d : String) (bn : Option String) (t : Bool)
        (N : Nat) (parsed : List PageRecord),
      env.pageCount = some N →
      (Parsing.parse env s d bn t).1 = .ok parsed →
      parsed.map (fun r => r.metadata.page_number)
        = List.range' 1 (limitOf t N)) := by
  constructor
  · intro env s d t N parsed hN h
    obtain ⟨N2, hpc, hup, hout, _⟩ := ParsingParallel.parse_ok_cases_pl env s d t parsed h
    have hNN : N2 = N := by rw [hN] at hpc; exact (Option.some.inj hpc).symm
    rw [hNN] at hout
    have hmap := ParsingParallel.collect_ok_map env d _ parsed hout
    refine ⟨hmap, ?_, ?_⟩
    · rw [hmap]
      exact pairwise_lt_filter_range' 1 (limitOf t N) _
    · rw [hmap]
      exact List.filter_sublist _
  · intro env s d bn t N parsed hN h
    obtain ⟨N2, hpc, hup, hout, _⟩ := Parsing.parse_ok_cases env s d bn t parsed h
    have hNN : N2 = N := by rw [hN] at hpc; exact (Option.some.inj hpc).symm
    rw [hNN] at hout
    exact Parsing.seqLoop_ok_map env d _ parsed hout

/-- Witness for C7: a concrete 3-page batch run in which page 2 has FAILURE
status returns records for pages `[1, 3]`, in ascending order. -/
theorem C7_witness :
    (⟨true, some 3, (fun n => if n = 2 then .failure else .success "md"), true,
        (fun _ => "u"), "b"⟩ : ParsingParallel.Env).pageCount = some 3
    ∧ (ParsingParallel.parse ⟨true, some 3,
        (fun n => if n = 2 then .failure else .success "md"), true,
        (fun _ => "u"), "b"⟩ "local.pdf" "doc" false).1
      = .ok [⟨"u", "md", ⟨1, "doc"⟩⟩, ⟨"u", "md", ⟨3, "doc"⟩⟩]
    ∧ ([⟨"u", "md", ⟨1, "doc"⟩⟩, ⟨"u", "md", ⟨3, "doc"⟩⟩]
          : List PageRecord).map (fun r => r.metadata.page_number)
      = (List.range' 1 (limitOf false 3)).filter
          (fun n => !(((⟨true, some 3,
              (fun n => if n = 2 then .failure else .success "md"), true,
              (fun _ => "u"), "b"⟩ : ParsingParallel.Env)).convertP n).isFail) :=
  ⟨rfl, rfl,
    (C7_output_sorted_failed_omitted.1
      ⟨true, some 3, (fun n => if n = 2 then .failure else .success "md"), true,
        (fun _ => "u"), "b"⟩ "local.pdf" "doc" false 3
      [⟨"u", "md", ⟨1, "doc"⟩⟩, ⟨"u", "md", ⟨3, "doc"⟩⟩] rfl rfl).1⟩

/-- Claim C6: with `testing=True` a run over an `N`-page PDF splits exactly
`min(N, 5)` pages, numbered contiguously `1..min(N, 5)`, and only pages in
that range are ever dispatched to conversion; with `testing=False` the
limit is `N`.  In the batch variant the split set equals the full range on
every path — even when a later conversion raises — because the cap is
applied when splitting, before any conversion.  In the sequential variant
no page outside the range is ever split or dispatched, and a fully
successful run splits exactly the range. -/
theorem C6_testing_page_cap :
    (∀ (env : ParsingParallel.Env) (s d : String) (t : Bool) (N : Nat),
      env.pageCount = some N → env.downloadOk = true →
      createdPages (ParsingParallel.parse env s d t).2
          = List.range' 1 (limitOf t N)
        ∧ ∀ k, Event.convertCall k ∈ (ParsingParallel.parse env s d t).2 →
            k ∈ List.range' 1 (limitOf t N))
    ∧ (∀ (env : Parsing.Env) (s d : String) (bn : Option String) (t : Bool)
        (N : Nat),
      env.pageCount = some N → env.downloadOk = true →
      (∀ k, Event.convertCall k ∈ (Parsing.parse env s d bn t).2 →
          k ∈ List.range' 1 (limitOf t N))
        ∧ (∀ k, Event.create (FName.page k) ∈ (Parsing.parse env s d bn t).2 →
            k ∈ List.range' 1 (limitOf t N))
        ∧ ((∀ n ∈ List.range' 1 (limitOf t N), ∃ tx, env.convert n = .ok tx) →
            createdPages (Parsing.parse env s d bn t).2
              = List.range' 1 (limitOf t N)))
    ∧ (∀ N, limitOf true N = min N 5 ∧ limitOf false N = N) := by
  refine ⟨?_, ?_, fun N => ⟨rfl, rfl⟩⟩
  · intro env s d t N hpc hdl
    have main : ∀ evs, (ParsingParallel.parse env s d t).2
          = (if isUrlSource s then [Event.create .download] else [])
            ++ (List.range' 1 (limitOf t N)).map (fun n => Event.create (.page n))
            ++ (ParsingParallel.collect env d (List.range' 1 (limitOf t N))).2
            ++ evs
        → convertCalls evs = [] ∧ createdPages evs = [] →
        createdPages (ParsingParallel.parse env s d t).2
            = List.range' 1 (limitOf t N)
          ∧ ∀ k, Event.convertCall k ∈ (ParsingParallel.parse env s d t).2 →
              k ∈ List.range' 1 (limitOf t N) := by
      intro evs heq hevs
      constructor
      · rw [heq]
        simp [ParsingParallel.collect_createdPages, createdPages_ite, hevs.2]
      · intro k hk
        have hk2 := (mem_convertCalls k _).2 hk
        rw [heq] at hk2
        simp [convertCalls_ite, hevs.1] at hk2
        exact ParsingParallel.collect_convertCalls_sub env d _ k hk2
    cases hout : (ParsingParallel.collect env d (List.range' 1 (limitOf t N))).1 with
    | error e =>
      refine main [] ?_ ⟨rfl, rfl⟩
      rw [ParsingParallel.parse_collectError env s d t N e hdl hpc hout]
      simp
    | ok p =>
      cases hup : env.uploadOk with
      | false =>
        refine main [] ?_ ⟨rfl, rfl⟩
        rw [ParsingParallel.parse_uploadFail_pl env s d t N p hdl hpc hout hup]
        simp
      | true =>
        refine main ([.upload env.defaultBucket (gcsKey d) p]
          ++ (List.range' 1 (limitOf t N)).map (fun n => Event.delete (.page n))
          ++ (if isUrlSource s then [Event.delete .download] else [])) ?_ ?_
        · rw [ParsingParallel.parse_ok_eq_pl env s d t N p hdl hpc hout hup]
          simp
        · constructor
          · simp [convertCalls_ite]
          · simp [createdPages_ite]
  · intro env s d bn t N hpc hdl
    have main : ∀ evs, (Parsing.parse env s d bn t).2
          = (if isUrlSource s then [Event.create .download] else [])
            ++ (Parsing.seqLoop env d (List.range' 1 (limitOf t N))).2
            ++ evs
        → convertCalls evs = [] ∧ createdPages evs = [] →
        (∀ k, Event.convertCall k ∈ (Parsing.parse env s d bn t).2 →
            k ∈ List.range' 1 (limitOf t N))
          ∧ (∀ k, Event.create (FName.page k) ∈ (Parsing.parse env s d bn t).2 →
              k ∈ List.range' 1 (limitOf t N))
          ∧ (createdPages (Parsing.parse env s d bn t).2
              = createdPages (Parsing.seqLoop env d (List.range' 1 (limitOf t N))).2) := by
      intro evs heq hevs
      refine ⟨?_, ?_, ?_⟩
      · intro k hk
        have hk2 := (mem_convertCalls k _).2 hk
        rw [heq] at hk2
        simp [convertCalls_ite, hevs.1] at hk2
        exact Parsing.seqLoop_convertCalls_sub env d _ k hk2
      · intro k hk
        have hk2 := (mem_createdPages k _).2 hk
        rw [heq] at hk2
        simp [createdPages_ite, hevs.2] at hk2
        exact Parsing.seqLoop_createdPages_sub env d _ k hk2
      · rw [heq]
        simp [createdPages_ite, hevs.2]
    have final : ∀ evs, (Parsing.parse env s d bn t).2
          = (if isUrlSource s then [Event.create .download] else [])
            ++ (Parsing.seqLoop env d (List.range' 1 (limitOf t N))).2
            ++ evs
        → convertCalls evs = [] ∧ createdPages evs = [] →
        (∀ k, Event.convertCall k ∈ (Parsing.parse env s d bn t).2 →
            k ∈ List.range' 1 (limitOf t N))
          ∧ (∀ k, Event.create (FName.page k) ∈ (Parsing.parse env s d bn t).2 →
              k ∈ List.range' 1 (limitOf t N))
          ∧ ((∀ n ∈ List.range' 1 (limitOf t N), ∃ tx, env.convert n = .ok tx) →
              createdPages (Parsing.parse env s d bn t).2
                = List.range' 1 (limitOf t N)) := by
      intro evs heq hevs
      obtain ⟨h1, h2, h3⟩ := main evs heq hevs
      refine ⟨h1, h2, fun hall => ?_⟩
      obtain ⟨p, hout⟩ := Parsing.seqLoop_ok_of_forall env d _ hall
      rw [h3]
      exact Parsing.seqLoop_ok_createdPages env d _ p hout
    cases hout : (Parsing.seqLoop env d (List.range' 1 (limitOf t N))).1 with
    | error e =>
      refine final [] ?_ ⟨rfl, rfl⟩
      rw [Parsing.parse_loopError env s d bn t N e hdl hpc hout]
      simp
    | ok p =>
      cases hup : env.uploadOk with
      | false =>
        refine final [] ?_ ⟨rfl, rfl⟩
        rw [Parsing.parse_uploadFail env s d bn t N p hdl hpc hout hup]
        simp
      | true =>
        refine final ([.upload (bn.getD env.defaultBucket) (gcsKey d) p]
          ++ (if isUrlSource s then [Event.delete .download] else [])) ?_ ?_
        · rw [Parsing.parse_ok_eq env s d bn t N p hdl hpc hout hup]
          simp
        · constructor
          · simp [convertCalls_ite]
          · simp [createdPages_ite]

/-- Witness for C6: a concrete 7-page batch run with `testing=True` splits
exactly pages `1..5`. -/
theorem C6_witness :
    (⟨true, some 7, (fun _ => .success "md"), true, (fun _ => "u"), "b"⟩
        : ParsingParallel.Env).pageCount = some 7
    ∧ (⟨true, some 7, (fun _ => .success "md"), true, (fun _ => "u"), "b"⟩
        : ParsingParallel.Env).downloadOk = true
    ∧ createdPages (ParsingParallel.parse
        ⟨true, some 7, (fun _ => .success "md"), true, (fun _ => "u"), "b"⟩
        "local.pdf" "doc" true).2 = List.range' 1 (limitOf true 7) :=
  ⟨rfl, rfl,
    (C6_testing_page_cap.1
      ⟨true, some 7, (fun _ => .success "md"), true, (fun _ => "u"), "b"⟩
      "local.pdf" "doc" true 7 rfl rfl).1⟩

/-- Counterexample to C1 as stated: in the sequential variant a raised
conversion error on page 1 of a 2-page document aborts the whole run — the
error propagates, no record is returned, and page 2 is never split or
converted, contradicting "continues converting and collecting all
remaining pages" and "never aborts the whole document run". -/
theorem C1_counterexample :
    (Parsing.parse ⟨true, some 2,
        (fun n => if n = 1 then .error "boom" else .ok "md"), true,
        (fun _ => "u"), "b"⟩ "local.pdf" "doc" none false).1
      = .error (.conversionError "boom")
    ∧ Event.convertCall 2 ∉ (Parsing.parse ⟨true, some 2,
        (fun n => if n = 1 then .error "boom" else .ok "md"), true,
        (fun _ => "u"), "b"⟩ "local.pdf" "doc" none false).2
    ∧ Event.create (FName.page 2) ∉ (Parsing.parse ⟨true, some 2,
        (fun n => if n = 1 then .error "boom" else .ok "md"), true,
        (fun _ => "u"), "b"⟩ "local.pdf" "doc" none false).2 :=
  ⟨rfl, by decide, by decide⟩

/-- Claim C1, amended: the batch variant isolates FAILURE-status
conversions — such a page is reported as failed, omitted from the output,
and all remaining pages are still collected, so the run completes — but a
conversion that raises an exception aborts the whole run in both variants;
in the sequential variant every per-page conversion failure is a raised
exception, so the first failing page ends the run: its temporary file is
still removed, the error propagates, and no later page is converted. -/
theorem C1_amended_failure_isolation :
    (∀ (env : ParsingParallel.Env) (s d : String) (t : Bool) (N : Nat),
      env.pageCount = some N → env.downloadOk = true → env.uploadOk = true →
      (∀ n ∈ List.range' 1 (limitOf t N), (env.convertP n).isRaised = false) →
      ∃ parsed, (ParsingParallel.parse env s d t).1 = .ok parsed
        ∧ parsed.map (fun r => r.metadata.page_number)
            = (List.range' 1 (limitOf t N)).filter
                (fun n => !(env.convertP n).isFail)
        ∧ failureReports (ParsingParallel.parse env s d t).2
            = (List.range' 1 (limitOf t N)).filter
                (fun n => (env.convertP n).isFail))
    ∧ (∀ (env : Parsing.Env) (s d : String) (bn : Option String) (t : Bool)
        (N : Nat) (l1 : List Nat) (k : Nat) (l2 : List Nat) (e : String),
      env.pageCount = some N → env.downloadOk = true →
      List.range' 1 (limitOf t N) = l1 ++ k :: l2 →
      (∀ n ∈ l1, ∃ tx, env.convert n = .ok tx) →
      env.convert k = .error e →
      (Parsing.parse env s d bn t).1 = .error (.conversionError e)
        ∧ convertCalls (Parsing.parse env s d bn t).2 = l1 ++ [k]
        ∧ Event.delete (.page k) ∈ (Parsing.parse env s d bn t).2) := by
  constructor
  · intro env s d t N hpc hdl hup hnr
    obtain ⟨p, hout⟩ := ParsingParallel.collect_ok_of_forall env d _ hnr
    have heq := ParsingParallel.parse_ok_eq_pl env s d t N p hdl hpc hout hup
    refine ⟨p, by rw [heq], ParsingParallel.collect_ok_map env d _ p hout, ?_⟩
    rw [heq]
    simp [failureReports_ite,
      ParsingParallel.collect_ok_failureReports env d _ p hout]
  · intro env s d bn t N l1 k l2 e hpc hdl hsplit h1 hk
    obtain ⟨hfe1, hfe2, hfe3⟩ := Parsing.seqLoop_first_error env d l1 k l2 e h1 hk
    rw [← hsplit] at hfe1 hfe2 hfe3
    have heq := Parsing.parse_loopError env s d bn t N (.conversionError e)
      hdl hpc hfe1
    refine ⟨by rw [heq], ?_, ?_⟩
    · rw [heq]
      simp [convertCalls_ite, hfe2]
    · rw [heq]
      simp only [List.mem_append]
      exact Or.inr hfe3

/-- Witness for C1 (amended): a batch run with a FAILURE-status page 1 of 2
still completes and reports page 1 as failed, while a sequential run whose
page 1 conversion raises aborts after dispatching only page 1. -/
theorem C1_amended_witness :
    failureReports (ParsingParallel.parse ⟨true, some 2,
        (fun n => if n = 1 then .failure else .success "md"), true,
        (fun _ => "u"), "b"⟩ "local.pdf" "doc" false).2 = [1]
    ∧ (Parsing.parse ⟨true, some 2,
        (fun n => if n = 1 then .error "boom" else .ok "md"), true,
        (fun _ => "u"), "b"⟩ "local.pdf" "doc" none false).1
      = .error (.conversionError "boom")
    ∧ convertCalls (Parsing.parse ⟨true, some 2,
        (fun n => if n = 1 then .error "boom" else .ok "md"), true,
        (fun _ => "u"), "b"⟩ "local.pdf" "doc" none false).2 = [1] := by
  constructor
  · obtain ⟨p, _, _, h3⟩ := C1_amended_failure_isolation.1
      ⟨true, some 2, (fun n => if n = 1 then .failure else .success "md"), true,
        (fun _ => "u"), "b"⟩ "local.pdf" "doc" false 2 rfl rfl rfl (by decide)
    exact h3.trans (by decide)
  · obtain ⟨h1, h2, _⟩ := C1_amended_failure_isolation.2
      ⟨true, some 2, (fun n => if n = 1 then .error "boom" else .ok "md"), true,
        (fun _ => "u"), "b"⟩ "local.pdf" "doc" none false 2 [] 1 [2] "boom"
      rfl rfl (by decide) (by simp) rfl
    exact ⟨h1, h2⟩

namespace Parsing

theorem parse_pages_cleaned (env : Env) (s d : String) (bn : Option String)
    (t : Bool) :
    ∀ n, FName.page n ∈ createdFiles (parse env s d bn t).2 →
      FName.page n ∈ deletedFiles (parse env s d bn t).2 := by
  intro n hn
  cases hU : isUrlSource s with
  | false =>
    cases hpc : env.pageCount with
    | none => simp [parse, hU, hpc] at hn
    | some N =>
      cases hout : (seqLoop env d (List.range' 1 (limitOf t N))).1 with
      | error e =>
        simp only [parse, hU, hpc, hout] at hn ⊢
        simp at hn ⊢
        rw [← seqLoop_created_eq_deleted]
        exact hn
      | ok p =>
        cases hup : env.uploadOk with
        | false =>
          simp only [parse, hU, hpc, hout, hup] at hn ⊢
          simp at hn ⊢
          rw [← seqLoop_created_eq_deleted]
          exact hn
        | true =>
          simp only [parse, hU, hpc, hout, hup] at hn ⊢
          simp at hn ⊢
          rw [← seqLoop_created_eq_deleted]
          exact hn
  | true =>
    cases hdl : env.downloadOk with
    | false => simp [parse, hU, hdl] at hn
    | true =>
      cases hpc : env.pageCount with
      | none => simp [parse, hU, hdl, hpc] at hn
      | some N =>
        cases hout : (seqLoop env d (List.range' 1 (limitOf t N))).1 with
        | error e =>
          simp only [parse, hU, hdl, hpc, hout] at hn ⊢
          simp at hn ⊢
          rw [← seqLoop_created_eq_deleted]
          exact hn
        | ok p =>
          cases hup : env.uploadOk with
          | false =>
            simp only [parse, hU, hdl, hpc, hout, hup] at hn ⊢
            simp at hn ⊢
            rw [← seqLoop_created_eq_deleted]
            exact hn
          | true =>
            simp only [parse, hU, hdl, hpc, hout, hup] at hn ⊢
            simp at hn ⊢
            rw [seqLoop_created_eq_deleted] at hn
            simp [hn]

end Parsing

/-- Counterexample to C2 as stated: a URL-source sequential run whose page-1
conversion raises exits with the error, but the downloaded source file has
not been deleted when the error propagates — a transient file the run
created outlives the run. -/
theorem C2_counterexample :
    (Parsing.parse ⟨true, some 1, (fun _ => .error "boom"), true,
        (fun _ => "u"), "b"⟩ "http://x" "doc" none false).1
      = .error (.conversionError "boom")
    ∧ leaked (Parsing.parse ⟨true, some 1, (fun _ => .error "boom"), true,
        (fun _ => "u"), "b"⟩ "http://x" "doc" none false).2
      = [FName.download] :=
  ⟨rfl, rfl⟩

/-- Claim C2, amended: on normal completion every transient file a run
created has been deleted before it returns, and the sequential variant
additionally deletes every per-page temporary PDF on every exit path (the
`finally` block); but when an error propagates, the downloaded source file
— and, in the batch variant, also the per-page temporaries — are not
deleted. -/
theorem C2_amended_cleanup_on_success :
    (∀ (env : Parsing.Env) (s d : String) (bn : Option String) (t : Bool)
        (parsed : List PageRecord),
      (Parsing.parse env s d bn t).1 = .ok parsed →
      leaked (Parsing.parse env s d bn t).2 = [])
    ∧ (∀ (env : Parsing.Env) (s d : String) (bn : Option String) (t : Bool)
        (n : Nat),
      FName.page n ∈ createdFiles (Parsing.parse env s d bn t).2 →
      FName.page n ∈ deletedFiles (Parsing.parse env s d bn t).2)
    ∧ (∀ (env : ParsingParallel.Env) (s d : String) (t : Bool)
        (parsed : List PageRecord),
      (ParsingParallel.parse env s d t).1 = .ok parsed →
      leaked (ParsingParallel.parse env s d t).2 = []) := by
  refine ⟨?_, ?_, ?_⟩
  · intro env s d bn t parsed h
    obtain ⟨N, hpc, hup, hout, heq⟩ := Parsing.parse_ok_cases env s d bn t parsed h
    rw [heq]
    apply leaked_eq_nil
    intro f hf
    cases hU : isUrlSource s with
    | false =>
      simp [hU] at hf ⊢
      rw [← Parsing.seqLoop_created_eq_deleted]
      exact hf
    | true =>
      simp [hU] at hf ⊢
      rcases hf with hf | hf
      · simp [hf]
      · rw [Parsing.seqLoop_created_eq_deleted] at hf
        simp [hf]
  · exact fun env s d bn t n => Parsing.parse_pages_cleaned env s d bn t n
  · intro env s d t parsed h
    obtain ⟨N, hpc, hup, hout, heq⟩ := ParsingParallel.parse_ok_cases_pl env s d t parsed h
    rw [heq]
    apply leaked_eq_nil
    intro f hf
    cases hU : isUrlSource s with
    | false =>
      simp [hU, ParsingParallel.collect_createdFiles,
        ParsingParallel.collect_deletedFiles] at hf ⊢
      exact hf
    | true =>
      simp [hU, ParsingParallel.collect_createdFiles,
        ParsingParallel.collect_deletedFiles] at hf ⊢
      rcases hf with hf | hf
      · simp [hf]
      · simp [hf]

/-- Witness for C2 (amended): a concrete successful URL-source sequential
run leaks nothing. -/
theorem C2_amended_witness :
    (Parsing.parse ⟨true, some 2, (fun _ => .ok "md"), true, (fun _ => "u"),
        "b"⟩ "http://x" "doc" none false).1
      = .ok [⟨"u", "md", ⟨1, "doc"⟩⟩, ⟨"u", "md", ⟨2, "doc"⟩⟩]
    ∧ leaked (Parsing.parse ⟨true, some 2, (fun _ => .ok "md"), true,
        (fun _ => "u"), "b"⟩ "http://x" "doc" none false).2 = [] :=
  ⟨rfl, C2_amended_cleanup_on_success.1
    ⟨true, some 2, (fun _ => .ok "md"), true, (fun _ => "u"), "b"⟩
    "http://x" "doc" none false
    [⟨"u", "md", ⟨1, "doc"⟩⟩, ⟨"u", "md", ⟨2, "doc"⟩⟩] rfl⟩

/-- Counterexample to C3 as stated: on a readable PDF whose page count is
0, the sequential run reports no error at all — it completes with an empty
list and uploads an empty JSON array.  No `EmptyDocument` (or any other)
error condition is reported. -/
theorem C3_counterexample :
    Parsing.parse ⟨true, some 0, (fun _ => .ok "md"), true, (fun _ => "u"),
        "cesgs-dart"⟩ "local.pdf" "doc" none false
      = (.ok [], [Event.upload "cesgs-dart" (gcsKey "doc") []]) :=
  rfl

/-- Claim C3, amended: a readable PDF with page count 0 does not crash
either variant, but no error condition is reported: the run completes
normally, uploading an empty JSON array and returning an empty list. -/
theorem C3_amended_empty_document :
    (∀ (env : Parsing.Env) (s d : String) (bn : Option String) (t : Bool),
      env.pageCount = some 0 → env.downloadOk = true → env.uploadOk = true →
      (Parsing.parse env s d bn t).1 = .ok []
        ∧ uploads (Parsing.parse env s d bn t).2
            = [(bn.getD env.defaultBucket, gcsKey d, [])])
    ∧ (∀ (env : ParsingParallel.Env) (s d : String) (t : Bool),
      env.pageCount = some 0 → env.downloadOk = true → env.uploadOk = true →
      (ParsingParallel.parse env s d t).1 = .ok []
        ∧ uploads (ParsingParallel.parse env s d t).2
            = [(env.defaultBucket, gcsKey d, [])]) := by
  constructor
  · intro env s d bn t hpc hdl hup
    have hlim : limitOf t 0 = 0 := by cases t <;> rfl
    have hout : (Parsing.seqLoop env d (List.range' 1 (limitOf t 0))).1
        = .ok [] := by rw [hlim]; rfl
    have heq := Parsing.parse_ok_eq env s d bn t 0 [] hdl hpc hout hup
    refine ⟨by rw [heq], ?_⟩
    rw [heq]
    simp [Parsing.seqLoop_uploads, uploads_ite]
  · intro env s d t hpc hdl hup
    have hlim : limitOf t 0 = 0 := by cases t <;> rfl
    have hout : (ParsingParallel.collect env d (List.range' 1 (limitOf t 0))).1
        = .ok [] := by rw [hlim]; rfl
    have heq := ParsingParallel.parse_ok_eq_pl env s d t 0 [] hdl hpc hout hup
    refine ⟨by rw [heq], ?_⟩
    rw [heq]
    simp [ParsingParallel.collect_uploads, uploads_ite]

/-- Witness for C3 (amended): a concrete zero-page run returns `.ok []`. -/
theorem C3_amended_witness :
    (⟨true, some 0, (fun _ => .ok "md"), true, (fun _ => "u"), "b"⟩
        : Parsing.Env).pageCount = some 0
    ∧ (Parsing.parse ⟨true, some 0, (fun _ => .ok "md"), true, (fun _ => "u"),
        "b"⟩ "local.pdf" "doc" none false).1 = .ok [] :=
  ⟨rfl, (C3_amended_empty_document.1
    ⟨true, some 0, (fun _ => .ok "md"), true, (fun _ => "u"), "b"⟩
    "local.pdf" "doc" none false rfl rfl rfl).1⟩

/-- Counterexample to C4 as stated: in a run where splitting and conversion
succeed (page 1 was converted) but the upload fails, the error propagates
and the assembled list is NOT returned to the caller — the result is the
error alone, so the computed page records are discarded. -/
theorem C4_counterexample :
    (Parsing.parse ⟨true, some 1, (fun _ => .ok "md"), false, (fun _ => "u"),
        "b"⟩ "local.pdf" "doc" none false).1 = .error .uploadError
    ∧ convertCalls (Parsing.parse ⟨true, some 1, (fun _ => .ok "md"), false,
        (fun _ => "u"), "b"⟩ "local.pdf" "doc" none false).2 = [1] :=
  ⟨rfl, rfl⟩

/-- Claim C4, amended: when splitting and conversion succeed but the
storage upload fails, the run raises the persistence error to the caller
and the assembled in-memory list is not returned (the computed page
records are discarded); nothing is persisted. -/
theorem C4_amended_upload_failure :
    (∀ (env : Parsing.Env) (s d : String) (bn : Option String) (t : Bool)
        (N : Nat),
      env.pageCount = some N → env.downloadOk = true →
      (∀ n ∈ List.range' 1 (limitOf t N), ∃ tx, env.convert n = .ok tx) →
      env.uploadOk = false →
      (Parsing.parse env s d bn t).1 = .error .uploadError
        ∧ uploads (Parsing.parse env s d bn t).2 = [])
    ∧ (∀ (env : ParsingParallel.Env) (s d : String) (t : Bool) (N : Nat),
      env.pageCount = some N → env.downloadOk = true →
      (∀ n ∈ List.range' 1 (limitOf t N), (env.convertP n).isRaised = false) →
      env.uploadOk = false →
      (ParsingParallel.parse env s d t).1 = .error .uploadError
        ∧ uploads (ParsingParallel.parse env s d t).2 = []) := by
  constructor
  · intro env s d bn t N hpc hdl hall hup
    obtain ⟨p, hout⟩ := Parsing.seqLoop_ok_of_forall env d _ hall
    have heq := Parsing.parse_uploadFail env s d bn t N p hdl hpc hout hup
    refine ⟨by rw [heq], ?_⟩
    rw [heq]
    simp [Parsing.seqLoop_uploads, uploads_ite]
  · intro env s d t N hpc hdl hall hup
    obtain ⟨p, hout⟩ := ParsingParallel.collect_ok_of_forall env d _ hall
    have heq := ParsingParallel.parse_uploadFail_pl env s d t N p hdl hpc hout hup
    refine ⟨by rw [heq], ?_⟩
    rw [heq]
    simp [ParsingParallel.collect_uploads, uploads_ite]

/-- Witness for C4 (amended): a concrete run with a failing upload exits
with `uploadError` and persists nothing. -/
theorem C4_amended_witness :
    (⟨true, some 1, (fun _ => .ok "md"), false, (fun _ => "u"), "b"⟩
        : Parsing.Env).uploadOk = false
    ∧ (Parsing.parse ⟨true, some 1, (fun _ => .ok "md"), false,
        (fun _ => "u"), "b"⟩ "local.pdf" "doc" none false).1
      = .error .uploadError :=
  ⟨rfl, (C4_amended_upload_failure.1
    ⟨true, some 1, (fun _ => .ok "md"), false, (fun _ => "u"), "b"⟩
    "local.pdf" "doc" none false 1 rfl rfl
    (fun _ _ => ⟨"md", rfl⟩) rfl).1⟩

/-- Counterexample to C5 as stated: in the batch variant a page-1
conversion that raises (the `raises_on_error=True` mode in use) aborts the
collection: two artifacts were split (pages 1 and 2) but the run produces
zero outcomes — no page records are returned and no failure reports are
made, so the number of outcomes does not equal the number of artifacts. -/
theorem C5_counterexample :
    createdPages (ParsingParallel.parse ⟨true, some 2,
        (fun n => if n = 1 then .raised "boom" else .success "md"), true,
        (fun _ => "u"), "b"⟩ "local.pdf" "doc" false).2 = [1, 2]
    ∧ failureReports (ParsingParallel.parse ⟨true, some 2,
        (fun n => if n = 1 then .raised "boom" else .success "md"), true,
        (fun _ => "u"), "b"⟩ "local.pdf" "doc" false).2 = []
    ∧ (ParsingParallel.parse ⟨true, some 2,
        (fun n => if n = 1 then .raised "boom" else .success "md"), true,
        (fun _ => "u"), "b"⟩ "local.pdf" "doc" false).1
      = .error (.conversionError "boom") :=
  ⟨rfl, rfl, rfl⟩

/-- Claim C5, amended: provided no page's conversion raises, the batch
variant produces exactly one outcome per split artifact — each page of
`1..limit` yields either a returned page record or a failure report, and
together their page numbers are a permutation of `1..limit` (no drops, no
duplicates); a raised conversion error instead aborts the run with fewer
outcomes than artifacts.  In the sequential variant a run returns only
when every page converted, and then the records' page numbers are exactly
`1..limit`. -/
theorem C5_amended_one_outcome_per_artifact :
    (∀ (env : ParsingParallel.Env) (s d : String) (t : Bool) (N : Nat),
      env.pageCount = some N → env.downloadOk = true → env.uploadOk = true →
      (∀ n ∈ List.range' 1 (limitOf t N), (env.convertP n).isRaised = false) →
      ∃ parsed, (ParsingParallel.parse env s d t).1 = .ok parsed
        ∧ (parsed.map (fun r => r.metadata.page_number)
            ++ failureReports (ParsingParallel.parse env s d t).2).Perm
              (List.range' 1 (limitOf t N))
        ∧ createdPages (ParsingParallel.parse env s d t).2
            = List.range' 1 (limitOf t N))
    ∧ (∀ (env : Parsing.Env) (s d : String) (bn : Option String) (t : Bool)
        (N : Nat),
      env.pageCount = some N → env.downloadOk = true → env.uploadOk = true →
      (∀ n ∈ List.range' 1 (limitOf t N), ∃ tx, env.convert n = .ok tx) →
      ∃ parsed, (Parsing.parse env s d bn t).1 = .ok parsed
        ∧ parsed.map (fun r => r.metadata.page_number)
            = List.range' 1 (limitOf t N)) := by
  constructor
  · intro env s d t N hpc hdl hup hnr
    obtain ⟨p, hout⟩ := ParsingParallel.collect_ok_of_forall env d _ hnr
    have heq := ParsingParallel.parse_ok_eq_pl env s d t N p hdl hpc hout hup
    refine ⟨p, by rw [heq], ?_, ?_⟩
    · have hmap := ParsingParallel.collect_ok_map env d _ p hout
      have hfail : failureReports (ParsingParallel.parse env s d t).2
          = (List.range' 1 (limitOf t N)).filter
              (fun n => (env.convertP n).isFail) := by
        rw [heq]
        simp [failureReports_ite,
          ParsingParallel.collect_ok_failureReports env d _ p hout]
      rw [hmap, hfail]
      have hcongr : (List.range' 1 (limitOf t N)).filter
            (fun n => (env.convertP n).isFail)
          = (List.range' 1 (limitOf t N)).filter
              (fun n => !(!(env.convertP n).isFail)) :=
        List.filter_congr (by intro x _; simp)
      rw [hcongr]
      exact List.filter_append_perm _ _
    · rw [heq]
      simp [ParsingParallel.collect_createdPages, createdPages_ite]
  · intro env s d bn t N hpc hdl hup hall
    obtain ⟨p, hout⟩ := Parsing.seqLoop_ok_of_forall env d _ hall
    have heq := Parsing.parse_ok_eq env s d bn t N p hdl hpc hout hup
    exact ⟨p, by rw [heq], Parsing.seqLoop_ok_map env d _ p hout⟩

/-- Witness for C5 (amended): a concrete 2-page batch run with page 1 in
FAILURE status yields one record (page 2) and one failure report (page 1)
— two outcomes for two artifacts. -/
theorem C5_amended_witness :
    createdPages (ParsingParallel.parse ⟨true, some 2,
        (fun n => if n = 1 then .failure else .success "md"), true,
        (fun _ => "u"), "b"⟩ "local.pdf" "doc" false).2 = [1, 2]
    ∧ ([(⟨"u", "md", ⟨2, "doc"⟩⟩ : PageRecord)].map
          (fun r => r.metadata.page_number)
        ++ failureReports (ParsingParallel.parse ⟨true, some 2,
            (fun n => if n = 1 then .failure else .success "md"), true,
            (fun _ => "u"), "b"⟩ "local.pdf" "doc" false).2).Perm
        (List.range' 1 (limitOf false 2)) := by
  obtain ⟨p, h1, h2, h3⟩ := C5_amended_one_outcome_per_artifact.1
    ⟨true, some 2, (fun n => if n = 1 then .failure else .success "md"), true,
      (fun _ => "u"), "b"⟩ "local.pdf" "doc" false 2 rfl rfl rfl (by decide)
  have hp : p = [(⟨"u", "md", ⟨2, "doc"⟩⟩ : PageRecord)] := by
    have : (ParsingParallel.parse ⟨true, some 2,
        (fun n => if n = 1 then .failure else .success "md"), true,
        (fun _ => "u"), "b"⟩ "local.pdf" "doc" false).1
        = .ok [(⟨"u", "md", ⟨2, "doc"⟩⟩ : PageRecord)] := rfl
    rw [this] at h1
    exact (Except.ok.inj h1).symm
  rw [hp] at h2
  exact ⟨h3, h2⟩
